import Mathlib

/-!
Verification of the pixel-matrix-studio bitmap codec and edit-state engine.

The edit-state engine (selection, clipboard, floating layer, undo history)
is embedded from src/App.tsx and src/components/EditorCanvas.tsx.  Pixel
buffers (JS Uint8Array values) are modelled as List Nat; JS typed-array
semantics are kept: a read at a negative or too-large index yields
undefined, which coerces to 0 when stored into a typed array, and a write
at an out-of-range index is silently dropped.  React state semantics are
kept: within one event handler every read of a state variable sees the
value from the handler's closure (the state at handler entry), and the
set-calls only take effect afterwards, in order.

The codec itself (generateCArray / parseCArray in utils/bitmapUtils.ts) is
not part of the provided sources, so it is modelled from the spec, section
4.2; every such definition carries a doc comment saying so.
-/

namespace PixelMatrix

/-- Scan mode, from src/types.ts. -/
inductive ScanMode where
  | HORIZONTAL_RASTER
  | VERTICAL_PAGE
deriving DecidableEq, Repr

/-- Byte order (bit order within a byte), from src/types.ts. -/
inductive ByteOrder where
  | MSB_FIRST
  | LSB_FIRST
deriving DecidableEq, Repr

/-- Drawing tool, from src/types.ts. -/
inductive DrawTool where
  | PEN
  | ERASER
  | SELECT
deriving DecidableEq, Repr

/-! ## Codec: packing (modelled from the spec, section 4.2) -/

/-- Modelled from the spec: number of byte groups per row,
ceil(width / 8), used by the missing utils/bitmapUtils.ts codec. -/
def groupsPerRow (w : Nat) : Nat := (w + 7) / 8

/-- Modelled from the spec: number of 8-row pages, ceil(height / 8),
used by the missing utils/bitmapUtils.ts codec. -/
def pageCount (h : Nat) : Nat := (h + 7) / 8

/-- Modelled from the spec: the bit position a pixel visited at position k
(k = 0 is the first-visited pixel of a group) occupies inside a byte.
Under MSB_FIRST the first-visited pixel occupies bit 7, under LSB_FIRST it
occupies bit 0.  The map is an involution, so it also converts a bit
position back to a visit position. -/
def bitIndex : ByteOrder → Nat → Nat
  | ByteOrder.MSB_FIRST, k => 7 - k
  | ByteOrder.LSB_FIRST, k => k

/-- A byte assembled from its 8 bit values: bitAt i gives the value of
bit i (weight 2 ^ i). -/
def ofBits (bitAt : Fin 8 → Bool) : Nat :=
  (bitAt 0).toNat + 2 * (bitAt 1).toNat + 4 * (bitAt 2).toNat +
    8 * (bitAt 3).toNat + 16 * (bitAt 4).toNat + 32 * (bitAt 5).toNat +
    64 * (bitAt 6).toNat + 128 * (bitAt 7).toNat

/-- A cell of a pixel buffer is lit when its stored byte is nonzero. -/
def cellLit (cells : List Nat) (idx : Nat) : Bool :=
  cells.getD idx 0 != 0

/-- Modelled from the spec: pixel sampled for horizontal-raster packing,
visit position k inside byte group g of row y; pixels beyond the width are
treated as 0. -/
def sampleH (cells : List Nat) (w : Nat) (y g k : Nat) : Bool :=
  if g * 8 + k < w then cellLit cells (y * w + (g * 8 + k)) else false

/-- Modelled from the spec: pixel sampled for vertical-page packing, visit
position k (top to bottom) of column x in page p; rows beyond the height
are treated as 0. -/
def sampleV (cells : List Nat) (w h : Nat) (p x k : Nat) : Bool :=
  if p * 8 + k < h then cellLit cells ((p * 8 + k) * w + x) else false

/-- Modelled from the spec: the byte emitted for row y, group g under
horizontal-raster scanning. -/
def mkByteH (order : ByteOrder) (cells : List Nat) (w : Nat) (y g : Nat) : Nat :=
  ofBits fun i => sampleH cells w y g (bitIndex order i)

/-- Modelled from the spec: the byte emitted for page p, column x under
vertical-page scanning. -/
def mkByteV (order : ByteOrder) (cells : List Nat) (w h : Nat) (p x : Nat) : Nat :=
  ofBits fun i => sampleV cells w h p x (bitIndex order i)

/-- Modelled from the spec: the packed byte sequence produced by the
missing generateCArray.  Horizontal raster emits row-major (one full row
of byte groups before the next row); vertical page emits page-major and,
within a page, column-major. -/
def packBytes (cells : List Nat) (w h : Nat) (mode : ScanMode) (order : ByteOrder) :
    List Nat :=
  match mode with
  | ScanMode.HORIZONTAL_RASTER =>
      (List.range (h * groupsPerRow w)).map fun i =>
        mkByteH order cells w (i / groupsPerRow w) (i % groupsPerRow w)
  | ScanMode.VERTICAL_PAGE =>
      (List.range (pageCount h * w)).map fun i =>
        mkByteV order cells w h (i / w) (i % w)

/-- Modelled from the spec: the byte count implied by (width, height,
scanMode): ceil(width/8)*height for horizontal raster and
width*ceil(height/8) for vertical page. -/
def expectedCount (w h : Nat) : ScanMode → Nat
  | ScanMode.HORIZONTAL_RASTER => groupsPerRow w * h
  | ScanMode.VERTICAL_PAGE => w * pageCount h

/-! ## Codec: text rendering (modelled from the spec, section 4.2) -/

/-- The sixteen upper-case hex digit characters. -/
def hexDigits : List Char :=
  ['0', '1', '2', '3', '4', '5', '6', '7', '8', '9', 'A', 'B', 'C', 'D', 'E', 'F']

/-- The hex digit character for a value below 16. -/
def hexDigitChar (n : Nat) : Char := hexDigits.getD n '0'

/-- Modelled from the spec: one byte rendered as a two-hex-digit literal
0xNN. -/
def renderByte (b : Nat) : List Char :=
  ['0', 'x', hexDigitChar (b / 16), hexDigitChar (b % 16)]

/-- Modelled from the spec: the byte sequence rendered as comma-separated
0xNN literals.  The spec states that line wrapping and whitespace carry no
semantic weight and are ignored by any re-parse, so a single separator
form is used. -/
def renderBytes : List Nat → List Char
  | [] => []
  | [b] => renderByte b
  | b :: bs => renderByte b ++ ',' :: ' ' :: renderBytes bs

/-- Modelled from the spec: the exported text for a packed byte
sequence. -/
def textOf (bytes : List Nat) : String := String.mk (renderBytes bytes)

/-- Modelled from the spec: the missing generateCArray composed as
pack-then-render. -/
def generateCArray (cells : List Nat) (w h : Nat) (mode : ScanMode)
    (order : ByteOrder) : String :=
  textOf (packBytes cells w h mode order)

/-! ## Codec: parsing (modelled from the spec, section 4.2) -/

/-- A character that can belong to a numeric literal token: a decimal
digit, a hex digit letter, or the x of a 0x prefix.  Everything else
(C-style punctuation, braces, whitespace) is noise between tokens. -/
def isTokenChar (c : Char) : Bool :=
  c.isDigit || c == 'x' || c == 'X' ||
    (decide ('a' ≤ c) && decide (c ≤ 'f')) || (decide ('A' ≤ c) && decide (c ≤ 'F'))

/-- Token splitter: maximal runs of token characters, accumulator holds
the current run reversed. -/
def tokenizeAux : List Char → List Char → List (List Char)
  | [], acc => if acc.isEmpty then [] else [acc.reverse]
  | c :: cs, acc =>
      if isTokenChar c then tokenizeAux cs (c :: acc)
      else if acc.isEmpty then tokenizeAux cs acc
      else acc.reverse :: tokenizeAux cs []

/-- Modelled from the spec: extraction of every numeric-literal token from
the raw text, discarding punctuation as noise. -/
def tokenize (cs : List Char) : List (List Char) := tokenizeAux cs []

/-- The numeric value of a hex digit character, if it is one. -/
def hexVal? (c : Char) : Option Nat :=
  if c.isDigit then some (c.toNat - '0'.toNat)
  else if decide ('a' ≤ c) && decide (c ≤ 'f') then some (c.toNat - 'a'.toNat + 10)
  else if decide ('A' ≤ c) && decide (c ≤ 'F') then some (c.toNat - 'A'.toNat + 10)
  else none

/-- The numeric value of a decimal digit character, if it is one. -/
def decVal? (c : Char) : Option Nat :=
  if c.isDigit then some (c.toNat - '0'.toNat) else none

/-- The value of a hex digit string, most significant digit first; fails
on a non-hex-digit character. -/
def hexDigitsVal (cs : List Char) : Option Nat :=
  cs.foldl
    (fun acc c =>
      match acc, hexVal? c with
      | some a, some d => some (a * 16 + d)
      | _, _ => none)
    (some 0)

/-- The value of a decimal digit string, most significant digit first;
fails on a non-digit character. -/
def decDigitsVal (cs : List Char) : Option Nat :=
  cs.foldl
    (fun acc c =>
      match acc, decVal? c with
      | some a, some d => some (a * 10 + d)
      | _, _ => none)
    (some 0)

/-- Modelled from the spec: a token coerced to an integer; 0x-prefixed
tokens are read as hex, all-digit tokens as decimal, anything else fails
(not parseable as an integer). -/
def parseToken (t : List Char) : Option Nat :=
  match t with
  | c0 :: c1 :: rest =>
      if c0 = '0' ∧ (c1 = 'x' ∨ c1 = 'X') then
        if rest.isEmpty then none else hexDigitsVal rest
      else if t.isEmpty then none else decDigitsVal t
  | _ => if t.isEmpty then none else decDigitsVal t

/-- Modelled from the spec: the pixel recovered for cell (x, y) by
reversing the packing algorithm with the caller-supplied configuration. -/
def unpackPixel (bytes : List Nat) (w : Nat) (mode : ScanMode) (order : ByteOrder)
    (x y : Nat) : Bool :=
  match mode with
  | ScanMode.HORIZONTAL_RASTER =>
      Nat.testBit (bytes.getD (y * groupsPerRow w + x / 8) 0) (bitIndex order (x % 8))
  | ScanMode.VERTICAL_PAGE =>
      Nat.testBit (bytes.getD (y / 8 * w + x) 0) (bitIndex order (y % 8))

/-- Modelled from the spec: every token coerced to an integer; fails as
soon as one token is not parseable. -/
def parseTokens : List (List Char) → Option (List Nat)
  | [] => some []
  | t :: ts =>
      match parseToken t, parseTokens ts with
      | some v, some vs => some (v :: vs)
      | _, _ => none

/-- Modelled from the spec: the full pixel grid scattered back from a byte
sequence, row-major, one binary value per cell. -/
def unpackBytes (bytes : List Nat) (w h : Nat) (mode : ScanMode)
    (order : ByteOrder) : List Nat :=
  (List.range (w * h)).map fun i =>
    if unpackPixel bytes w mode order (i % w) (i / w) then 1 else 0

/-- Modelled from the spec: the missing parseCArray.  Fails (returns no
result) when no numeric token is found, when a token is not parseable as
an integer, when a token value exceeds 0xFF, or when the decoded byte
count differs from the count implied by the supplied configuration;
otherwise it scatters the bytes back into a pixel grid. -/
def parseCArray (text : String) (w h : Nat) (mode : ScanMode) (order : ByteOrder) :
    Option (List Nat) :=
  if (tokenize text.toList).isEmpty then none
  else
    match parseTokens (tokenize text.toList) with
    | none => none
    | some bytes =>
        if bytes.any (fun b => 255 < b) then none
        else if bytes.length != expectedCount w h mode then none
        else some (unpackBytes bytes w h mode order)

/-! ## Edit-state engine: data model (src/types.ts, src/App.tsx) -/

/-- SelectionRect from src/types.ts.  x and y are JS numbers that can be
negative; w and h are nonnegative extents (a JS loop bound below zero runs
zero times, which a Nat extent of 0 also models). -/
structure SelectionRect where
  x : Int
  y : Int
  w : Nat
  h : Nat
deriving DecidableEq, Repr

/-- FloatingLayer from src/types.ts: a movable uncommitted pixel patch.
Its position can be dragged to negative coordinates. -/
structure FloatingLayer where
  x : Int
  y : Int
  w : Nat
  h : Nat
  data : List Nat
deriving DecidableEq, Repr

/-- ClipboardData from src/App.tsx. -/
structure ClipboardData where
  width : Nat
  height : Nat
  pixels : List Nat
deriving DecidableEq, Repr

/-- The reactive state of the App component (src/App.tsx), restricted to
the edit-state engine: pixel buffer, history, selection, clipboard,
floating layer and its background snapshot, plus the codec configuration
and the active tool. -/
structure AppState where
  width : Nat
  height : Nat
  pixels : List Nat
  history : List (List Nat)
  historyIndex : Nat
  tool : DrawTool
  scanMode : ScanMode
  byteOrder : ByteOrder
  selection : Option SelectionRect
  clipboard : Option ClipboardData
  floatingLayer : Option FloatingLayer
  backgroundSnapshot : Option (List Nat)
deriving DecidableEq, Repr

/-- The initial App state (src/App.tsx, useState initializers plus the
history-seeding effect): a 128 x 64 zero-filled buffer and a single-entry
history. -/
def initState : AppState where
  width := 128
  height := 64
  pixels := List.replicate (128 * 64) 0
  history := [List.replicate (128 * 64) 0]
  historyIndex := 0
  tool := DrawTool.PEN
  scanMode := ScanMode.VERTICAL_PAGE
  byteOrder := ByteOrder.MSB_FIRST
  selection := none
  clipboard := none
  floatingLayer := none
  backgroundSnapshot := none

/-! ## Edit-state engine: operations (src/App.tsx) -/

/-- addToHistory from src/App.tsx lines 57-65: slice the history up to the
current index, shift (evict the oldest) when the sliced length exceeds 50,
push a clone of the new snapshot, and point the index at the last entry.
Returns the new history and the new index. -/
def addToHistory (hist : List (List Nat)) (idx : Nat) (newPixels : List Nat) :
    List (List Nat) × Nat :=
  let nh := hist.take (idx + 1)
  let nh := if 50 < nh.length then nh.tail else nh
  let nh := nh ++ [newPixels]
  (nh, nh.length - 1)

/-- A JS Uint8Array element write arr idx = v: stored when the index is
in range, silently dropped otherwise. -/
def jsSet (arr : List Nat) (idx : Int) (v : Nat) : List Nat :=
  if 0 ≤ idx ∧ idx < arr.length then arr.set idx.toNat v else arr

/-- A JS Uint8Array element read arr idx, with the out-of-range
undefined coerced to 0 (its value when stored into a typed array). -/
def jsGetD (arr : List Nat) (idx : Int) : Nat :=
  if 0 ≤ idx then arr.getD idx.toNat 0 else 0

/-- handleDiscardFloatingLayer from src/App.tsx lines 290-300: when a
floating layer exists, restore the background snapshot (when one exists)
and clear both the layer and the snapshot.  EditHistory is not touched. -/
def handleDiscardFloatingLayer (s : AppState) : AppState :=
  match s.floatingLayer with
  | none => s
  | some _ =>
      { s with
        pixels := s.backgroundSnapshot.getD s.pixels
        floatingLayer := none
        backgroundSnapshot := none }

/-- The inner-loop body of the commit merge (src/App.tsx lines 270-281):
writes the floating cell (cx, cy) to its destination when that destination
lies inside the buffer, per-coordinate. -/
def commitStep (fl : FloatingLayer) (w h : Nat) (cy : Nat) (acc : List Nat)
    (cx : Nat) : List Nat :=
  let tx : Int := fl.x + cx
  let ty : Int := fl.y + cy
  if 0 ≤ tx ∧ tx < (w : Int) ∧ 0 ≤ ty ∧ ty < (h : Int) then
    acc.set (ty * w + tx).toNat (fl.data.getD (cy * fl.w + cx) 0)
  else acc

/-- One row of the commit merge loop. -/
def commitRow (fl : FloatingLayer) (w h : Nat) (cy : Nat) (acc : List Nat) :
    List Nat :=
  (List.range fl.w).foldl (fun a cx => commitStep fl w h cy a cx) acc

/-- The full commit merge (src/App.tsx lines 268-281): the floating layer
painted opaquely over a clone of the background, destination cells outside
the buffer dropped per-cell. -/
def mergeFloating (px : List Nat) (w h : Nat) (fl : FloatingLayer) : List Nat :=
  (List.range fl.h).foldl (fun acc cy => commitRow fl w h cy acc) px

/-- handleCommitFloatingLayer from src/App.tsx lines 265-288: merge the
layer into the background, push the merged buffer to history, clear the
selection, the layer and the snapshot. -/
def handleCommitFloatingLayer (s : AppState) : AppState :=
  match s.floatingLayer with
  | none => s
  | some fl =>
      let newPixels := mergeFloating s.pixels s.width s.height fl
      let hi := addToHistory s.history s.historyIndex newPixels
      { s with
        pixels := newPixels
        history := hi.1
        historyIndex := hi.2
        selection := none
        floatingLayer := none
        backgroundSnapshot := none }

/-- handleUndo from src/App.tsx lines 67-78: with a floating layer active
it simply cancels the float (behaves as Discard); otherwise it steps the
history index back when possible. -/
def handleUndo (s : AppState) : AppState :=
  if s.floatingLayer.isSome then handleDiscardFloatingLayer s
  else if 0 < s.historyIndex then
    { s with
      historyIndex := s.historyIndex - 1
      pixels := s.history.getD (s.historyIndex - 1) [] }
  else s

/-- handleRedo from src/App.tsx lines 80-87: a no-op while a floating
layer exists; otherwise it steps the history index forward when
possible. -/
def handleRedo (s : AppState) : AppState :=
  if s.floatingLayer.isSome then s
  else if s.historyIndex + 1 < s.history.length then
    { s with
      historyIndex := s.historyIndex + 1
      pixels := s.history.getD (s.historyIndex + 1) [] }
  else s

/-- The copy loop of handleCopy (src/App.tsx lines 180-189): a fresh
zeroed w x h clip buffer filled from the background.  The source read is
guarded only by srcIdx < pixels.length; a negative srcIdx passes that
guard and reads undefined, which the Uint8Array stores as 0. -/
def copyRegion (px : List Nat) (width : Nat) (r : SelectionRect) : List Nat :=
  (List.range r.h).foldl
    (fun clip (cy : Nat) =>
      (List.range r.w).foldl
        (fun clip2 (cx : Nat) =>
          let srcIdx : Int := (r.y + cy) * width + (r.x + cx)
          if srcIdx < (px.length : Int) then
            clip2.set (cy * r.w + cx) (jsGetD px srcIdx)
          else clip2)
        clip)
    (List.replicate (r.w * r.h) 0)

/-- handleCopy from src/App.tsx lines 176-191: requires a selection;
stores the copied rectangle in the clipboard. -/
def handleCopy (s : AppState) : AppState :=
  match s.selection with
  | none => s
  | some r =>
      { s with clipboard := some ⟨r.w, r.h, copyRegion s.pixels s.width r⟩ }

/-- The zeroing loop shared by handleCut and the Delete key handler
(src/App.tsx lines 198-204 and 358-365): writes 0 at every linear index
of the rectangle that is below pixels.length; a negative index write is
dropped by the typed array. -/
def zeroRegion (px : List Nat) (width : Nat) (r : SelectionRect) : List Nat :=
  (List.range r.h).foldl
    (fun acc cy =>
      (List.range r.w).foldl
        (fun acc2 cx =>
          let idx : Int := (r.y + cy) * width + (r.x + cx)
          if idx < (acc2.length : Int) then jsSet acc2 idx 0 else acc2)
        acc)
    px

/-- handleCut from src/App.tsx lines 193-206: copy, then zero the
rectangle in a clone of the background and push it to history. -/
def handleCut (s : AppState) : AppState :=
  match s.selection with
  | none => s
  | some r =>
      let newPixels := zeroRegion s.pixels s.width r
      let hi := addToHistory s.history s.historyIndex newPixels
      { s with
        clipboard := some ⟨r.w, r.h, copyRegion s.pixels s.width r⟩
        pixels := newPixels
        history := hi.1
        historyIndex := hi.2 }

/-- handlePaste from src/App.tsx lines 208-232.  With a clipboard: if a
floating layer exists it is committed first; then the handler stores a
snapshot of the pixels read from its own closure (the state at handler
entry, NOT the post-commit buffer), creates a floating layer from the
clipboard at the entry-time selection origin (or the origin), and selects
the SELECT tool. -/
def handlePaste (s : AppState) : AppState :=
  match s.clipboard with
  | none => s
  | some cb =>
      let s1 := if s.floatingLayer.isSome then handleCommitFloatingLayer s else s
      let startX : Int := match s.selection with | some r => r.x | none => 0
      let startY : Int := match s.selection with | some r => r.y | none => 0
      { s1 with
        backgroundSnapshot := some s.pixels
        floatingLayer := some ⟨startX, startY, cb.width, cb.height, cb.pixels⟩
        tool := DrawTool.SELECT }

/-- The lift loop of handleLiftSelection (src/App.tsx lines 242-253):
builds the floating buffer and zeroes the lifted cells in a clone of the
background; both statements share the guard idx < pixels.length. -/
def liftBuffers (px : List Nat) (width : Nat) (r : SelectionRect) :
    List Nat × List Nat :=
  (List.range r.h).foldl
    (fun acc (cy : Nat) =>
      (List.range r.w).foldl
        (fun acc2 (cx : Nat) =>
          let idx : Int := (r.y + cy) * width + (r.x + cx)
          if idx < (px.length : Int) then
            (acc2.1.set (cy * r.w + cx) (jsGetD px idx), jsSet acc2.2 idx 0)
          else acc2)
        acc)
    (List.replicate (r.w * r.h) 0, px)

/-- handleLiftSelection from src/App.tsx lines 235-263: commits a
pre-existing layer first, snapshots the entry-time background, copies the
rectangle into a new floating layer and zeroes it in the background (cut
semantics); no history push. -/
def handleLiftSelection (s : AppState) (rect : SelectionRect) : AppState :=
  let s1 := if s.floatingLayer.isSome then handleCommitFloatingLayer s else s
  let lb := liftBuffers s.pixels s.width rect
  { s1 with
    backgroundSnapshot := some s.pixels
    pixels := lb.2
    floatingLayer := some ⟨rect.x, rect.y, rect.w, rect.h, lb.1⟩ }

/-- handleDeselect from src/App.tsx lines 302-308: commits while floating,
otherwise clears the selection. -/
def handleDeselect (s : AppState) : AppState :=
  if s.floatingLayer.isSome then handleCommitFloatingLayer s
  else { s with selection := none }

/-- The Delete and Backspace key handler from src/App.tsx lines 354-368:
cancel the float when one exists, otherwise zero the selected rectangle
and push to history. -/
def handleDeleteKey (s : AppState) : AppState :=
  if s.floatingLayer.isSome then handleDiscardFloatingLayer s
  else
    match s.selection with
    | none => s
    | some r =>
        let newPixels := zeroRegion s.pixels s.width r
        let hi := addToHistory s.history s.historyIndex newPixels
        { s with pixels := newPixels, history := hi.1, historyIndex := hi.2 }

/-- clearCanvas from src/App.tsx lines 136-140: drops the floating layer,
replaces the buffer with zeros and pushes to history.  Note the snapshot
is not cleared here. -/
def clearCanvas (s : AppState) : AppState :=
  let newPixels := List.replicate (s.width * s.height) 0
  let hi := addToHistory s.history s.historyIndex newPixels
  { s with
    floatingLayer := none
    pixels := newPixels
    history := hi.1
    historyIndex := hi.2 }

/-- invertCanvas from src/App.tsx lines 142-146: flips every cell and
pushes to history. -/
def invertCanvas (s : AppState) : AppState :=
  let newPixels := s.pixels.map fun v => if v != 0 then 0 else 1
  let hi := addToHistory s.history s.historyIndex newPixels
  { s with pixels := newPixels, history := hi.1, historyIndex := hi.2 }

/-- handleStrokeEnd from src/App.tsx lines 104-108: pushes the current
pixels to history unless a floating layer is active. -/
def handleStrokeEnd (s : AppState) : AppState :=
  if s.floatingLayer.isSome then s
  else
    let hi := addToHistory s.history s.historyIndex s.pixels
    { s with history := hi.1, historyIndex := hi.2 }

/-- A single pen or eraser write from EditorCanvas handleDraw
(src/components/EditorCanvas.tsx lines 213-223): bounds-checked by
coordinate, no history push. -/
def drawCell (s : AppState) (x y : Nat) (v : Nat) : AppState :=
  if x < s.width ∧ y < s.height then
    { s with pixels := s.pixels.set (y * s.width + x) v }
  else s

/-- Dragging the floating layer (src/components/EditorCanvas.tsx lines
182-192): repositioning only; background, snapshot and history are
untouched. -/
def dragFloatingLayer (s : AppState) (nx ny : Int) : AppState :=
  match s.floatingLayer with
  | none => s
  | some fl => { s with floatingLayer := some { fl with x := nx, y := ny } }

/-- handleSetDimensions from src/App.tsx lines 112-134 (without the
external image-decoding collaborator): fresh zero buffer, history reseeded
to a single entry. -/
def handleSetDimensions (s : AppState) (w h : Nat) : AppState :=
  let newP := List.replicate (w * h) 0
  { s with
    width := w
    height := h
    pixels := newP
    history := [newP]
    historyIndex := 0 }

/-- handleImportCode from src/App.tsx lines 158-172 combined with the
CodeBlock preview flow (src/components/CodeBlock.tsx lines 76-96): the
the import is applied only when parseCArray succeeds; on failure the App
state — in particular its pixel buffer and history — is untouched. -/
def applyImport (s : AppState) (text : String) (w h : Nat) (mode : ScanMode)
    (order : ByteOrder) : AppState :=
  match parseCArray text w h mode order with
  | none => s
  | some px =>
      { s with
        width := w
        height := h
        scanMode := mode
        byteOrder := order
        history := [px]
        historyIndex := 0
        pixels := px }

/-- Canvas selection updates (src/components/EditorCanvas.tsx lines
194-209 and the various setSelection(null) call sites), abstracted to an
arbitrary new selection value. -/
def setSelectionOp (s : AppState) (r : Option SelectionRect) : AppState :=
  { s with selection := r }

/-! ## Reachable states of the edit-state engine -/

/-- One user-visible transition of the edit-state engine: every operation
of src/App.tsx and src/components/EditorCanvas.tsx that mutates the
engine's state. -/
inductive Step : AppState → AppState → Prop where
  | undo (s) : Step s (handleUndo s)
  | redo (s) : Step s (handleRedo s)
  | copy (s) : Step s (handleCopy s)
  | cut (s) : Step s (handleCut s)
  | paste (s) : Step s (handlePaste s)
  | lift (s rect) : Step s (handleLiftSelection s rect)
  | commit (s) : Step s (handleCommitFloatingLayer s)
  | discard (s) : Step s (handleDiscardFloatingLayer s)
  | deselect (s) : Step s (handleDeselect s)
  | deleteKey (s) : Step s (handleDeleteKey s)
  | clear (s) : Step s (clearCanvas s)
  | invert (s) : Step s (invertCanvas s)
  | strokeEnd (s) : Step s (handleStrokeEnd s)
  | draw (s x y v) : Step s (drawCell s x y v)
  | drag (s nx ny) : Step s (dragFloatingLayer s nx ny)
  | setDims (s w h) : Step s (handleSetDimensions s w h)
  | importCode (s text w h mode order) : Step s (applyImport s text w h mode order)
  | setSel (s r) : Step s (setSelectionOp s r)

/-- States reachable from the initial App state. -/
inductive Reachable : AppState → Prop where
  | init : Reachable initState
  | step {s s'} : Reachable s → Step s s' → Reachable s'

/-! ## Spec-side reference definition for the bounds-violation claim -/

/-- A second definition following the spec's words (not the source): the
Copy operation with out-of-bounds source cells clamped or dropped
per-cell — a cell outside the buffer contributes 0 to the clip buffer.
Used to compare the source's linear-index-guarded copy loop against the
claimed per-cell behavior. -/
def copyRegionSpec (px : List Nat) (width height : Nat) (r : SelectionRect) :
    List Nat :=
  (List.range (r.w * r.h)).map fun k =>
    let cy := k / r.w
    let cx := k % r.w
    let sx : Int := r.x + cx
    let sy : Int := r.y + cy
    if 0 ≤ sx ∧ sx < (width : Int) ∧ 0 ≤ sy ∧ sy < (height : Int) then
      jsGetD px (sy * width + sx)
    else 0

/-! ## History lemmas -/

/-- addToHistory always produces a truncated-and-possibly-evicted prefix of
the slice up to the current index, with the new snapshot appended, and
points the index at the last entry. -/
theorem addToHistory_parts (hist : List (List Nat)) (idx : Nat) (p : List Nat) :
    ∃ pre : List (List Nat),
      pre.Sublist (hist.take (idx + 1)) ∧
      (addToHistory hist idx p).1 = pre ++ [p] ∧
      (addToHistory hist idx p).2 + 1 = (addToHistory hist idx p).1.length := by
  unfold addToHistory
  dsimp only
  split
  · exact ⟨(hist.take (idx + 1)).tail, List.tail_sublist _, rfl, by simp⟩
  · exact ⟨hist.take (idx + 1), List.Sublist.refl _, rfl, by simp⟩

/-- The committed merge appends exactly one entry (the merged buffer) to a
sub-history of the old history and leaves the index at the last entry. -/
theorem commit_appends (s : AppState) (fl : FloatingLayer)
    (hfl : s.floatingLayer = some fl) :
    ∃ pre : List (List Nat),
      pre.Sublist s.history ∧
      (handleCommitFloatingLayer s).history =
        pre ++ [mergeFloating s.pixels s.width s.height fl] ∧
      (handleCommitFloatingLayer s).historyIndex + 1 =
        (handleCommitFloatingLayer s).history.length ∧
      (handleCommitFloatingLayer s).pixels =
        mergeFloating s.pixels s.width s.height fl := by
  obtain ⟨pre, hsub, heq, hidx⟩ :=
    addToHistory_parts s.history s.historyIndex
      (mergeFloating s.pixels s.width s.height fl)
  refine ⟨pre, hsub.trans (List.take_sublist _ _), ?_, ?_, ?_⟩ <;>
    simp only [handleCommitFloatingLayer, hfl]
  · exact heq
  · exact hidx

set_option maxRecDepth 4000 in
/-- Claim C2, counterexample: pushing 51 snapshots onto a fresh
single-entry history leaves 51 entries, not the claimed 50 (the cap check
runs before the push, so the steady-state length is 51). -/
theorem c2_history_51_counterexample :
    ((List.range 51).foldl
        (fun (st : List (List Nat) × Nat) k => addToHistory st.1 st.2 [k])
        ([[99]], 0)).1.length = 51 ∧
    ¬ ((List.range 51).foldl
        (fun (st : List (List Nat) × Nat) k => addToHistory st.1 st.2 [k])
        ([[99]], 0)).1.length = 50 := by
  constructor <;> decide

/-- Claim C8: push removes every history entry beyond the current index
(the result is a sublist of the slice up to the index plus the appended
snapshot), appends the snapshot as the last entry, and sets the index to
the new last entry — so no redo survives a fresh edit. -/
theorem c8_push_truncates_redo (hist : List (List Nat)) (idx : Nat) (p : List Nat) :
    (addToHistory hist idx p).2 + 1 = (addToHistory hist idx p).1.length ∧
    (addToHistory hist idx p).1.getLast? = some p ∧
    (addToHistory hist idx p).1.Sublist (hist.take (idx + 1) ++ [p]) := by
  obtain ⟨pre, hsub, heq, hidx⟩ := addToHistory_parts hist idx p
  refine ⟨hidx, ?_, ?_⟩
  · rw [heq]; exact List.getLast?_concat _
  · rw [heq]; exact hsub.append (List.Sublist.refl _)

/-! ## Floating-layer lifecycle theorems -/

/-- Claim C7: while a floating layer exists, Undo is literally Discard
(restores the snapshot, clears the layer, leaves the history and its index
alone) and Redo is the identity. -/
theorem c7_undo_redo_while_floating (s : AppState)
    (h : s.floatingLayer.isSome = true) :
    handleUndo s = handleDiscardFloatingLayer s ∧
    handleRedo s = s ∧
    (handleUndo s).history = s.history ∧
    (handleUndo s).historyIndex = s.historyIndex ∧
    (handleUndo s).floatingLayer = none ∧
    (∀ b, s.backgroundSnapshot = some b → (handleUndo s).pixels = b) := by
  obtain ⟨fl, hfl⟩ := Option.isSome_iff_exists.mp h
  have h1 : handleUndo s = handleDiscardFloatingLayer s := by
    unfold handleUndo; rw [if_pos h]
  have h2 : handleRedo s = s := by
    unfold handleRedo; rw [if_pos h]
  refine ⟨h1, h2, ?_, ?_, ?_, ?_⟩ <;>
    simp only [h1, handleDiscardFloatingLayer, hfl]
  intro b hb
  simp [hb]

/-- Claim C7, witness state: a floating layer over a tiny buffer. -/
theorem c7_witness :
    ({ initState with
        width := 2, height := 1, pixels := [0, 1], history := [[0, 1]],
        floatingLayer := some ⟨0, 0, 1, 1, [1]⟩,
        backgroundSnapshot := some [0, 1] } : AppState).floatingLayer.isSome = true ∧
    handleRedo
      { initState with
        width := 2, height := 1, pixels := [0, 1], history := [[0, 1]],
        floatingLayer := some ⟨0, 0, 1, 1, [1]⟩,
        backgroundSnapshot := some [0, 1] } =
      { initState with
        width := 2, height := 1, pixels := [0, 1], history := [[0, 1]],
        floatingLayer := some ⟨0, 0, 1, 1, [1]⟩,
        backgroundSnapshot := some [0, 1] } :=
  ⟨rfl,
    (c7_undo_redo_while_floating
      { initState with
        width := 2, height := 1, pixels := [0, 1], history := [[0, 1]],
        floatingLayer := some ⟨0, 0, 1, 1, [1]⟩,
        backgroundSnapshot := some [0, 1] } rfl).2.1⟩

/-- Claim C4: lifting a selection (from a state with no floating layer,
the only state the canvas triggers a lift from) and immediately discarding
restores the pixel buffer bit for bit, and neither operation touches the
history or its index. -/
theorem c4_lift_discard_roundtrip (s : AppState) (rect : SelectionRect)
    (hfl : s.floatingLayer = none)
    (hx : 0 ≤ rect.x) (hy : 0 ≤ rect.y)
    (hxw : rect.x + rect.w ≤ (s.width : Int))
    (hyh : rect.y + rect.h ≤ (s.height : Int)) :
    (handleDiscardFloatingLayer (handleLiftSelection s rect)).pixels = s.pixels ∧
    (handleLiftSelection s rect).history = s.history ∧
    (handleLiftSelection s rect).historyIndex = s.historyIndex ∧
    (handleDiscardFloatingLayer (handleLiftSelection s rect)).history = s.history ∧
    (handleDiscardFloatingLayer (handleLiftSelection s rect)).historyIndex =
      s.historyIndex := by
  have hlift : handleLiftSelection s rect =
      { s with
        backgroundSnapshot := some s.pixels
        pixels := (liftBuffers s.pixels s.width rect).2
        floatingLayer :=
          some ⟨rect.x, rect.y, rect.w, rect.h, (liftBuffers s.pixels s.width rect).1⟩ } := by
    unfold handleLiftSelection
    simp [hfl]
  rw [hlift]
  simp [handleDiscardFloatingLayer]

/-- Claim C4, witness: a 3 x 2 buffer with an interior 2 x 2 selection. -/
theorem c4_witness :
    (handleDiscardFloatingLayer
        (handleLiftSelection
          { initState with
            width := 3, height := 2, pixels := [1, 0, 1, 0, 1, 0],
            history := [[1, 0, 1, 0, 1, 0]] }
          ⟨1, 0, 2, 2⟩)).pixels = [1, 0, 1, 0, 1, 0] :=
  (c4_lift_discard_roundtrip
    { initState with
      width := 3, height := 2, pixels := [1, 0, 1, 0, 1, 0],
      history := [[1, 0, 1, 0, 1, 0]] }
    ⟨1, 0, 2, 2⟩ rfl (by decide) (by decide) (by decide) (by decide)).1

/-- Claim C6, counterexample: pasting while a floating layer exists
force-commits the layer (the buffer becomes the merged pixels) but the
snapshot stored for the new layer is the handler-entry pixels, not the
post-commit background — the React handler reads the pixels from its
closure.  At this concrete state the stored snapshot differs from the
background current at the moment the snapshot is taken. -/
theorem c6_paste_snapshot_counterexample :
    (handlePaste
        { initState with
          width := 2, height := 1, pixels := [0, 0], history := [[0, 0]],
          clipboard := some ⟨1, 1, [1]⟩,
          floatingLayer := some ⟨0, 0, 1, 1, [1]⟩,
          backgroundSnapshot := some [0, 0] }).backgroundSnapshot = some [0, 0] ∧
    (handlePaste
        { initState with
          width := 2, height := 1, pixels := [0, 0], history := [[0, 0]],
          clipboard := some ⟨1, 1, [1]⟩,
          floatingLayer := some ⟨0, 0, 1, 1, [1]⟩,
          backgroundSnapshot := some [0, 0] }).pixels = [1, 0] ∧
    ¬ (handlePaste
        { initState with
          width := 2, height := 1, pixels := [0, 0], history := [[0, 0]],
          clipboard := some ⟨1, 1, [1]⟩,
          floatingLayer := some ⟨0, 0, 1, 1, [1]⟩,
          backgroundSnapshot := some [0, 0] }).backgroundSnapshot =
      some ((handlePaste
        { initState with
          width := 2, height := 1, pixels := [0, 0], history := [[0, 0]],
          clipboard := some ⟨1, 1, [1]⟩,
          floatingLayer := some ⟨0, 0, 1, 1, [1]⟩,
          backgroundSnapshot := some [0, 0] }).pixels) := by
  refine ⟨?_, ?_, ?_⟩ <;> decide

/-- Claim C6, amended: paste with a non-empty clipboard and an existing
floating layer force-commits that layer, appending exactly one entry (the
merged buffer) to a sub-history of the old history, leaves the buffer at
the merged pixels, snapshots the background as it was when Paste was
invoked (before the implicit commit), and creates the new floating layer
from the clipboard at the invocation-time selection origin (or the
origin); committing the pasted layer later appends exactly one further
entry. -/
theorem c6_paste_force_commits (s : AppState) (cb : ClipboardData)
    (fl : FloatingLayer) (hcb : s.clipboard = some cb)
    (hfl : s.floatingLayer = some fl) :
    (∃ pre : List (List Nat), pre.Sublist s.history ∧
      (handlePaste s).history =
        pre ++ [mergeFloating s.pixels s.width s.height fl]) ∧
    (handlePaste s).pixels = mergeFloating s.pixels s.width s.height fl ∧
    (handlePaste s).backgroundSnapshot = some s.pixels ∧
    (handlePaste s).floatingLayer =
      some ⟨(match s.selection with | some r => r.x | none => 0),
            (match s.selection with | some r => r.y | none => 0),
            cb.width, cb.height, cb.pixels⟩ ∧
    (handlePaste s).tool = DrawTool.SELECT ∧
    (∃ pre2 : List (List Nat), pre2.Sublist (handlePaste s).history ∧
      (handleCommitFloatingLayer (handlePaste s)).history =
        pre2 ++
          [mergeFloating (handlePaste s).pixels (handlePaste s).width
            (handlePaste s).height
            ⟨(match s.selection with | some r => r.x | none => 0),
             (match s.selection with | some r => r.y | none => 0),
             cb.width, cb.height, cb.pixels⟩]) := by
  have hsome : s.floatingLayer.isSome = true := by rw [hfl]; rfl
  obtain ⟨pre, hsub, hhist, hidx, hpix⟩ := commit_appends s fl hfl
  have hpaste : handlePaste s =
      { handleCommitFloatingLayer s with
        backgroundSnapshot := some s.pixels
        floatingLayer :=
          some ⟨(match s.selection with | some r => r.x | none => 0),
                (match s.selection with | some r => r.y | none => 0),
                cb.width, cb.height, cb.pixels⟩
        tool := DrawTool.SELECT } := by
    unfold handlePaste
    rw [hcb]
    simp [hsome]
  refine ⟨⟨pre, hsub, ?_⟩, ?_, ?_, ?_, ?_, ?_⟩
  · rw [hpaste]; exact hhist
  · rw [hpaste]; exact hpix
  · rw [hpaste]
  · rw [hpaste]
  · rw [hpaste]
  · obtain ⟨pre2, hsub2, hhist2, _, _⟩ :=
      commit_appends (handlePaste s)
        ⟨(match s.selection with | some r => r.x | none => 0),
         (match s.selection with | some r => r.y | none => 0),
         cb.width, cb.height, cb.pixels⟩
        (by rw [hpaste])
    exact ⟨pre2, hsub2, hhist2⟩

/-- Claim C6, witness: the amended paste theorem applied to the concrete
counterexample state. -/
theorem c6_witness :
    (handlePaste
        { initState with
          width := 2, height := 1, pixels := [0, 0], history := [[0, 0]],
          clipboard := some ⟨1, 1, [1]⟩,
          floatingLayer := some ⟨0, 0, 1, 1, [1]⟩,
          backgroundSnapshot := some [0, 0] }).backgroundSnapshot =
      some [0, 0] :=
  (c6_paste_force_commits
      { initState with
        width := 2, height := 1, pixels := [0, 0], history := [[0, 0]],
        clipboard := some ⟨1, 1, [1]⟩,
        floatingLayer := some ⟨0, 0, 1, 1, [1]⟩,
        backgroundSnapshot := some [0, 0] }
      ⟨1, 1, [1]⟩ ⟨0, 0, 1, 1, [1]⟩ rfl rfl).2.2.1

/-! ## Parse-failure lemmas (claim C3) -/

/-- A token that fails to parse makes the whole token list fail to
parse. -/
theorem parseTokens_eq_none {toks : List (List Char)} {t : List Char}
    (ht : t ∈ toks) (hnone : parseToken t = none) :
    parseTokens toks = none := by
  induction toks with
  | nil => simp at ht
  | cons a as ih =>
      rcases List.mem_cons.mp ht with rfl | hmem
      · simp [parseTokens, hnone]
      · cases ha : parseToken a <;> simp [parseTokens, ha, ih hmem]

/-- A successfully parsed token's value appears among the decoded
bytes. -/
theorem mem_of_parseTokens_some {toks : List (List Char)}
    {bytes : List Nat} {t : List Char} {v : Nat}
    (hsome : parseTokens toks = some bytes) (ht : t ∈ toks)
    (hv : parseToken t = some v) : v ∈ bytes := by
  induction toks generalizing bytes with
  | nil => simp at ht
  | cons a as ih =>
      cases ha : parseToken a with
      | none => simp [parseTokens, ha] at hsome
      | some b =>
          cases hrest : parseTokens as with
          | none => simp [parseTokens, ha, hrest] at hsome
          | some bs =>
              have hb : bytes = b :: bs := by
                rw [parseTokens, ha, hrest] at hsome
                exact (Option.some.inj hsome).symm
              subst hb
              rcases List.mem_cons.mp ht with rfl | hmem
              · rw [ha] at hv
                injection hv with hbv
                subst hbv
                exact List.mem_cons_self _ _
              · exact List.mem_cons_of_mem _ (ih hrest hmem)

/-- Claim C3: parsing fails — an explicit no-result, never a truncated or
padded buffer — whenever the text holds no numeric token, some token is
not parseable as an integer or exceeds 0xFF, or the decoded byte count
differs from the count implied by the configuration; and on failure the
caller's state, in particular its pixel buffer and history, is
unchanged. -/
theorem c3_parse_rejects (text : String) (w h : Nat) (mode : ScanMode)
    (order : ByteOrder) (s : AppState)
    (hcond :
      tokenize text.toList = [] ∨
      (∃ t ∈ tokenize text.toList, parseToken t = none) ∨
      (∃ t ∈ tokenize text.toList, ∃ v, parseToken t = some v ∧ 255 < v) ∨
      (∀ bytes : List Nat, parseTokens (tokenize text.toList) = some bytes →
        bytes.length ≠ expectedCount w h mode)) :
    parseCArray text w h mode order = none ∧
    applyImport s text w h mode order = s := by
  have hnone : parseCArray text w h mode order = none := by
    unfold parseCArray
    by_cases he : (tokenize text.toList).isEmpty = true
    · rw [if_pos he]
    · rw [if_neg he]
      rcases hcond with hemp | ⟨t, ht, hpn⟩ | ⟨t, ht, v, hpv, hgt⟩ | hlen
      · rw [hemp] at he
        simp at he
      · rw [parseTokens_eq_none ht hpn]
      · cases hm : parseTokens (tokenize text.toList) with
        | none => rfl
        | some bytes =>
            have hv : v ∈ bytes := mem_of_parseTokens_some hm ht hpv
            have hany : bytes.any (fun b => 255 < b) = true :=
              List.any_eq_true.mpr ⟨v, hv, by simpa using hgt⟩
            dsimp only
            rw [if_pos hany]
      · cases hm : parseTokens (tokenize text.toList) with
        | none => rfl
        | some bytes =>
            have hne : (bytes.length != expectedCount w h mode) = true := by
              simpa using hlen bytes hm
            dsimp only
            by_cases hany : bytes.any (fun b => 255 < b) = true
            · rw [if_pos hany]
            · rw [if_neg hany, if_pos hne]
  exact ⟨hnone, by unfold applyImport; rw [hnone]⟩

/-- Claim C3, witness: a five-byte input for an 8 x 8 horizontal-raster
buffer (which needs 8 bytes) is rejected and leaves the state alone. -/
theorem c3_witness :
    parseCArray ("0x01, 0x02, 0x03, 0x04, 0x05") 8 8
      ScanMode.HORIZONTAL_RASTER ByteOrder.MSB_FIRST = none ∧
    applyImport initState ("0x01, 0x02, 0x03, 0x04, 0x05") 8 8
      ScanMode.HORIZONTAL_RASTER ByteOrder.MSB_FIRST = initState :=
  c3_parse_rejects ("0x01, 0x02, 0x03, 0x04, 0x05") 8 8
    ScanMode.HORIZONTAL_RASTER ByteOrder.MSB_FIRST initState
    (Or.inr (Or.inr (Or.inr (fun bytes hb => by
      have hm : parseTokens
          (tokenize (String.toList ("0x01, 0x02, 0x03, 0x04, 0x05"))) =
          some [1, 2, 3, 4, 5] := by decide
      rw [hm] at hb
      injection hb with hb
      subst hb
      decide))))

/-! ## Loop lemmas for the commit merge (claims C5 and C9) -/

/-- Length-preserving fold steps preserve the list length. -/
theorem foldl_length_inv {α : Type} (f : List Nat → α → List Nat)
    (hf : ∀ acc a, (f acc a).length = acc.length) :
    ∀ (l : List α) (acc : List Nat), (l.foldl f acc).length = acc.length := by
  intro l
  induction l with
  | nil => intro acc; rfl
  | cons a as ih => intro acc; rw [List.foldl_cons, ih, hf]

/-- One commit write preserves the buffer length. -/
theorem commitStep_length (fl : FloatingLayer) (w h cy cx : Nat) (acc : List Nat) :
    (commitStep fl w h cy acc cx).length = acc.length := by
  unfold commitStep
  dsimp only
  split <;> simp

/-- One commit row preserves the buffer length. -/
theorem commitRow_length (fl : FloatingLayer) (w h cy : Nat) (acc : List Nat) :
    (commitRow fl w h cy acc).length = acc.length :=
  foldl_length_inv _ (fun acc cx => commitStep_length fl w h cy cx acc) _ _

/-- The commit merge preserves the buffer length. -/
theorem mergeFloating_length (px : List Nat) (w h : Nat) (fl : FloatingLayer) :
    (mergeFloating px w h fl).length = px.length :=
  foldl_length_inv _ (fun acc cy => commitRow_length fl w h cy acc) _ _

/-- Row-major cell coordinates with a bounded column are recovered
uniquely from the linear index. -/
theorem int_cell_inj (ty ty' tx tx' : Int) (w : Nat)
    (htx : 0 ≤ tx) (htxw : tx < (w : Int)) (htx' : 0 ≤ tx') (htxw' : tx' < (w : Int))
    (hty : 0 ≤ ty) (hty' : 0 ≤ ty')
    (heq : (ty * w + tx).toNat = (ty' * w + tx').toNat) : ty = ty' ∧ tx = tx' := by
  have hA : 0 ≤ ty * w := mul_nonneg hty (by exact_mod_cast Nat.zero_le w)
  have hA' : 0 ≤ ty' * w := mul_nonneg hty' (by exact_mod_cast Nat.zero_le w)
  have h1 : ty * w + tx = ty' * w + tx' := by omega
  have hty2 : ty = ty' := by
    rcases lt_trichotomy ty ty' with hlt | heq2 | hgt
    · exfalso
      have hd : (1 : Int) ≤ ty' - ty := by omega
      have hstep : 1 * (w : Int) ≤ (ty' - ty) * w :=
        mul_le_mul_of_nonneg_right hd (by exact_mod_cast Nat.zero_le w)
      have hring : (ty' - ty) * w = ty' * w - ty * w := by ring
      omega
    · exact heq2
    · exfalso
      have hd : (1 : Int) ≤ ty - ty' := by omega
      have hstep : 1 * (w : Int) ≤ (ty - ty') * w :=
        mul_le_mul_of_nonneg_right hd (by exact_mod_cast Nat.zero_le w)
      have hring : (ty - ty') * w = ty * w - ty' * w := by ring
      omega
  subst hty2
  exact ⟨rfl, by omega⟩

/-- A commit write whose destination is not cell j leaves cell j alone. -/
theorem commitStep_getD_ne (fl : FloatingLayer) (w h cy cx j : Nat)
    (acc : List Nat)
    (hne : (0 ≤ fl.x + (cx : Int) ∧ fl.x + (cx : Int) < (w : Int) ∧
        0 ≤ fl.y + (cy : Int) ∧ fl.y + (cy : Int) < (h : Int)) →
      ((fl.y + (cy : Int)) * w + (fl.x + (cx : Int))).toNat ≠ j) :
    (commitStep fl w h cy acc cx).getD j 0 = acc.getD j 0 := by
  unfold commitStep
  dsimp only
  split
  · next hin =>
      rw [List.getD_eq_getElem?_getD, List.getElem?_set, if_neg (hne hin)]
      exact (List.getD_eq_getElem?_getD acc j 0).symm
  · rfl

/-- A commit write to cell j stores the floating cell value there. -/
theorem commitStep_getD_eq (fl : FloatingLayer) (w h cy cx j : Nat)
    (acc : List Nat)
    (hin : 0 ≤ fl.x + (cx : Int) ∧ fl.x + (cx : Int) < (w : Int) ∧
      0 ≤ fl.y + (cy : Int) ∧ fl.y + (cy : Int) < (h : Int))
    (hj : ((fl.y + (cy : Int)) * w + (fl.x + (cx : Int))).toNat = j)
    (hjlen : j < acc.length) :
    (commitStep fl w h cy acc cx).getD j 0 = fl.data.getD (cy * fl.w + cx) 0 := by
  unfold commitStep
  dsimp only
  rw [if_pos hin, List.getD_eq_getElem?_getD, List.getElem?_set, if_pos hj,
    if_pos (by omega)]
  rfl

/-- A row of commit writes none of which targets cell j leaves cell j
alone. -/
theorem commitRow_aux_ne (fl : FloatingLayer) (w h cy j : Nat) (n : Nat) :
    ∀ acc : List Nat,
      (∀ cx, cx < n →
        (0 ≤ fl.x + (cx : Int) ∧ fl.x + (cx : Int) < (w : Int) ∧
          0 ≤ fl.y + (cy : Int) ∧ fl.y + (cy : Int) < (h : Int)) →
        ((fl.y + (cy : Int)) * w + (fl.x + (cx : Int))).toNat ≠ j) →
      ((List.range n).foldl (fun a cx => commitStep fl w h cy a cx) acc).getD j 0 =
        acc.getD j 0 := by
  induction n with
  | zero => intro acc _; rfl
  | succ n ih =>
      intro acc hmiss
      rw [List.range_succ, List.foldl_append, List.foldl_cons, List.foldl_nil]
      rw [commitStep_getD_ne fl w h cy n j _ (hmiss n (Nat.lt_succ_self n))]
      exact ih acc fun cx hcx => hmiss cx (Nat.lt_succ_of_lt hcx)

/-- Inside a row, the write for column cx is the one that decides cell j
when its destination is j. -/
theorem commitRow_aux_eq (fl : FloatingLayer) (w h cy j : Nat) (n : Nat) :
    ∀ (cx : Nat), cx < n → ∀ acc : List Nat, acc.length = w * h → j < acc.length →
      (0 ≤ fl.x + (cx : Int) ∧ fl.x + (cx : Int) < (w : Int) ∧
        0 ≤ fl.y + (cy : Int) ∧ fl.y + (cy : Int) < (h : Int)) →
      ((fl.y + (cy : Int)) * w + (fl.x + (cx : Int))).toNat = j →
      ((List.range n).foldl (fun a cx => commitStep fl w h cy a cx) acc).getD j 0 =
        fl.data.getD (cy * fl.w + cx) 0 := by
  induction n with
  | zero => intro cx hcx; omega
  | succ n ih =>
      intro cx hcx acc hlen hjlen hin hj
      rw [List.range_succ, List.foldl_append, List.foldl_cons, List.foldl_nil]
      by_cases hc : cx = n
      · subst hc
        exact commitStep_getD_eq fl w h cy cx j _ hin hj
          (by
            rw [foldl_length_inv _ (fun acc cx => commitStep_length fl w h cy cx acc)]
            exact hjlen)
      · have hcx' : cx < n := by omega
        rw [commitStep_getD_ne fl w h cy n j _ ?hne]
        · exact ih cx hcx' acc hlen hjlen hin hj
        case hne =>
          intro hin2 hj2
          have := int_cell_inj (fl.y + (cy : Int)) (fl.y + (cy : Int))
            (fl.x + (n : Int)) (fl.x + (cx : Int)) w hin2.1 hin2.2.1 hin.1 hin.2.1
            hin2.2.2.1 hin.2.2.1 (by rw [hj2, hj])
          omega

/-- Rows of commit writes none of which target cell j leave cell j
alone. -/
theorem mergeFloating_aux_ne (fl : FloatingLayer) (w h j : Nat) (m : Nat) :
    ∀ acc : List Nat,
      (∀ cy cx, cy < m → cx < fl.w →
        (0 ≤ fl.x + (cx : Int) ∧ fl.x + (cx : Int) < (w : Int) ∧
          0 ≤ fl.y + (cy : Int) ∧ fl.y + (cy : Int) < (h : Int)) →
        ((fl.y + (cy : Int)) * w + (fl.x + (cx : Int))).toNat ≠ j) →
      ((List.range m).foldl (fun acc cy => commitRow fl w h cy acc) acc).getD j 0 =
        acc.getD j 0 := by
  induction m with
  | zero => intro acc _; rfl
  | succ m ih =>
      intro acc hmiss
      rw [List.range_succ, List.foldl_append, List.foldl_cons, List.foldl_nil]
      have hrow :
          (commitRow fl w h m
              ((List.range m).foldl (fun acc cy => commitRow fl w h cy acc) acc)).getD
              j 0 =
            ((List.range m).foldl (fun acc cy => commitRow fl w h cy acc) acc).getD
              j 0 :=
        commitRow_aux_ne fl w h m j fl.w _
          (fun cx hcx => hmiss m cx (Nat.lt_succ_self m) hcx)
      rw [hrow]
      exact ih acc fun cy cx hcy => hmiss cy cx (Nat.lt_succ_of_lt hcy)

/-- The floating cell (cx, cy) whose in-bounds destination is cell j
decides the merged value of cell j. -/
theorem mergeFloating_aux_eq (fl : FloatingLayer) (w h j : Nat) (m : Nat) :
    ∀ (cy cx : Nat), cy < m → cx < fl.w →
      ∀ acc : List Nat, acc.length = w * h → j < acc.length →
      (0 ≤ fl.x + (cx : Int) ∧ fl.x + (cx : Int) < (w : Int) ∧
        0 ≤ fl.y + (cy : Int) ∧ fl.y + (cy : Int) < (h : Int)) →
      ((fl.y + (cy : Int)) * w + (fl.x + (cx : Int))).toNat = j →
      ((List.range m).foldl (fun acc cy => commitRow fl w h cy acc) acc).getD j 0 =
        fl.data.getD (cy * fl.w + cx) 0 := by
  induction m with
  | zero => intro cy cx hcy; omega
  | succ m ih =>
      intro cy cx hcy hcx acc hlen hjlen hin hj
      rw [List.range_succ, List.foldl_append, List.foldl_cons, List.foldl_nil]
      by_cases hc : cy = m
      · subst hc
        exact commitRow_aux_eq fl w h cy j fl.w cx hcx _
          (by
            rw [foldl_length_inv _ (fun acc cy => commitRow_length fl w h cy acc)]
            exact hlen)
          (by
            rw [foldl_length_inv _ (fun acc cy => commitRow_length fl w h cy acc)]
            exact hjlen)
          hin hj
      · have hcy' : cy < m := by omega
        have hrow :
            (commitRow fl w h m
                ((List.range m).foldl (fun acc cy => commitRow fl w h cy acc) acc)).getD
                j 0 =
              ((List.range m).foldl (fun acc cy => commitRow fl w h cy acc) acc).getD
                j 0 := by
          apply commitRow_aux_ne fl w h m j fl.w
          intro cx2 hcx2 hin2 hj2
          have := int_cell_inj (fl.y + (m : Int)) (fl.y + (cy : Int))
            (fl.x + (cx2 : Int)) (fl.x + (cx : Int)) w hin2.1 hin2.2.1 hin.1 hin.2.1
            hin2.2.2.1 hin.2.2.1 (by rw [hj2, hj])
          omega
        rw [hrow]
        exact ih cy cx hcy' hcx acc hlen hjlen hin hj

/-- Claim C5: committing a floating layer overwrites every in-bounds
destination cell with the layer's value (opaque, whether 0 or 1), drops
layer cells whose destination is outside the buffer (those background
cells are untouched), pushes the merged buffer to EditHistory as one new
entry with the index at it, and clears the layer, the snapshot and the
selection; the buffer keeps its width * height cell count. -/
theorem c5_commit_merges (s : AppState) (fl : FloatingLayer)
    (hfl : s.floatingLayer = some fl)
    (hlen : s.pixels.length = s.width * s.height) :
    (∀ cy cx : Nat, cy < fl.h → cx < fl.w →
      0 ≤ fl.x + (cx : Int) → fl.x + (cx : Int) < (s.width : Int) →
      0 ≤ fl.y + (cy : Int) → fl.y + (cy : Int) < (s.height : Int) →
      (handleCommitFloatingLayer s).pixels.getD
          ((fl.y + (cy : Int)) * s.width + (fl.x + (cx : Int))).toNat 0 =
        fl.data.getD (cy * fl.w + cx) 0) ∧
    (∀ j : Nat,
      (∀ cy cx : Nat, cy < fl.h → cx < fl.w →
        (0 ≤ fl.x + (cx : Int) ∧ fl.x + (cx : Int) < (s.width : Int) ∧
          0 ≤ fl.y + (cy : Int) ∧ fl.y + (cy : Int) < (s.height : Int)) →
        ((fl.y + (cy : Int)) * s.width + (fl.x + (cx : Int))).toNat ≠ j) →
      (handleCommitFloatingLayer s).pixels.getD j 0 = s.pixels.getD j 0) ∧
    (∃ pre : List (List Nat), pre.Sublist s.history ∧
      (handleCommitFloatingLayer s).history =
        pre ++ [(handleCommitFloatingLayer s).pixels]) ∧
    (handleCommitFloatingLayer s).historyIndex + 1 =
      (handleCommitFloatingLayer s).history.length ∧
    (handleCommitFloatingLayer s).floatingLayer = none ∧
    (handleCommitFloatingLayer s).backgroundSnapshot = none ∧
    (handleCommitFloatingLayer s).selection = none ∧
    (handleCommitFloatingLayer s).pixels.length = s.width * s.height := by
  obtain ⟨pre, hsub, hhist, hidx, hpix⟩ := commit_appends s fl hfl
  refine ⟨?_, ?_, ⟨pre, hsub, ?_⟩, hidx, ?_, ?_, ?_, ?_⟩
  · intro cy cx hcy hcx htx htxw hty htyh
    rw [hpix]
    have hA : 0 ≤ (fl.y + (cy : Int)) * s.width :=
      mul_nonneg hty (by exact_mod_cast Nat.zero_le _)
    have h1 : ((fl.y + (cy : Int)) + 1) * s.width =
        (fl.y + (cy : Int)) * s.width + s.width := by ring
    have h2 : ((fl.y + (cy : Int)) + 1) * s.width ≤ (s.height : Int) * s.width :=
      mul_le_mul_of_nonneg_right (by omega) (by exact_mod_cast Nat.zero_le _)
    have hcast : ((s.width * s.height : Nat) : Int) = (s.height : Int) * s.width := by
      push_cast
      ring
    exact mergeFloating_aux_eq fl s.width s.height _ fl.h cy cx hcy hcx s.pixels
      hlen (by omega) ⟨htx, htxw, hty, htyh⟩ rfl
  · intro j hmiss
    rw [hpix]
    exact mergeFloating_aux_ne fl s.width s.height j fl.h s.pixels hmiss
  · rw [hhist, hpix]
  · simp only [handleCommitFloatingLayer, hfl]
  · simp only [handleCommitFloatingLayer, hfl]
  · simp only [handleCommitFloatingLayer, hfl]
  · rw [hpix, mergeFloating_length]
    exact hlen

/-- Claim C5, witness: a 2 x 2 layer at x = -1 over a 3 x 2 buffer; the
in-bounds destination (0, 0) takes the layer value at (cx, cy) = (1, 0). -/
theorem c5_witness :
    (handleCommitFloatingLayer
        { initState with
          width := 3, height := 2, pixels := [0, 0, 0, 0, 0, 0],
          history := [[0, 0, 0, 0, 0, 0]],
          floatingLayer := some ⟨-1, 0, 2, 2, [1, 1, 1, 0]⟩,
          backgroundSnapshot := some [0, 0, 0, 0, 0, 0] }).pixels.getD 0 0 = 1 :=
  (c5_commit_merges
      { initState with
        width := 3, height := 2, pixels := [0, 0, 0, 0, 0, 0],
        history := [[0, 0, 0, 0, 0, 0]],
        floatingLayer := some ⟨-1, 0, 2, 2, [1, 1, 1, 0]⟩,
        backgroundSnapshot := some [0, 0, 0, 0, 0, 0] }
      ⟨-1, 0, 2, 2, [1, 1, 1, 0]⟩ rfl (by decide)).1 0 1 (by decide) (by decide)
    (by decide) (by decide) (by decide) (by decide)

/-! ## Length preservation of the selection loops (claim C9) -/

/-- jsSet preserves the array length. -/
theorem jsSet_length (arr : List Nat) (idx : Int) (v : Nat) :
    (jsSet arr idx v).length = arr.length := by
  unfold jsSet
  split <;> simp

/-- Pair folds whose steps preserve both lengths preserve both
lengths. -/
theorem foldl_pair_length {α : Type}
    (f : List Nat × List Nat → α → List Nat × List Nat)
    (hf1 : ∀ acc a, ((f acc a).1).length = acc.1.length)
    (hf2 : ∀ acc a, ((f acc a).2).length = acc.2.length) :
    ∀ (l : List α) (acc : List Nat × List Nat),
      ((l.foldl f acc).1.length = acc.1.length ∧
        (l.foldl f acc).2.length = acc.2.length) := by
  intro l
  induction l with
  | nil => intro acc; exact ⟨rfl, rfl⟩
  | cons a as ih =>
      intro acc
      rw [List.foldl_cons]
      exact ⟨(ih (f acc a)).1.trans (hf1 acc a), (ih (f acc a)).2.trans (hf2 acc a)⟩

/-- The copy loop produces a clip buffer of exactly w * h cells. -/
theorem copyRegion_length (px : List Nat) (width : Nat) (r : SelectionRect) :
    (copyRegion px width r).length = r.w * r.h := by
  unfold copyRegion
  refine (foldl_length_inv _ ?_ _ _).trans (List.length_replicate _ _)
  intro acc cy
  refine foldl_length_inv _ ?_ _ _
  intro acc2 cx
  dsimp only
  split <;> simp

/-- The cut and delete zeroing loop preserves the buffer length. -/
theorem zeroRegion_length (px : List Nat) (width : Nat) (r : SelectionRect) :
    (zeroRegion px width r).length = px.length := by
  unfold zeroRegion
  refine foldl_length_inv _ ?_ _ _
  intro acc cy
  refine foldl_length_inv _ ?_ _ _
  intro acc2 cx
  dsimp only
  split
  · exact jsSet_length _ _ _
  · rfl

/-- The lift loop produces a w * h floating buffer and preserves the
background length. -/
theorem liftBuffers_length (px : List Nat) (width : Nat) (r : SelectionRect) :
    (liftBuffers px width r).1.length = r.w * r.h ∧
    (liftBuffers px width r).2.length = px.length := by
  have hinner : ∀ (cy : Nat) (acc : List Nat × List Nat),
      (((List.range r.w).foldl
          (fun acc2 (cx : Nat) =>
            let idx : Int := (r.y + cy) * width + (r.x + cx)
            if idx < (px.length : Int) then
              (acc2.1.set (cy * r.w + cx) (jsGetD px idx), jsSet acc2.2 idx 0)
            else acc2)
          acc).1.length = acc.1.length ∧
        ((List.range r.w).foldl
          (fun acc2 (cx : Nat) =>
            let idx : Int := (r.y + cy) * width + (r.x + cx)
            if idx < (px.length : Int) then
              (acc2.1.set (cy * r.w + cx) (jsGetD px idx), jsSet acc2.2 idx 0)
            else acc2)
          acc).2.length = acc.2.length) := by
    intro cy acc
    refine foldl_pair_length _ ?_ ?_ (List.range r.w) acc
    · intro acc2 cx
      dsimp only
      split <;> simp
    · intro acc2 cx
      dsimp only
      split
      · exact jsSet_length _ _ _
      · rfl
  have houter := foldl_pair_length _
    (fun acc cy => (hinner cy acc).1) (fun acc cy => (hinner cy acc).2)
    (List.range r.h) (List.replicate (r.w * r.h) 0, px)
  unfold liftBuffers
  exact ⟨houter.1.trans (List.length_replicate _ _), houter.2⟩

/-- Claim C9, counterexample: Copy guards only the linear source index
(srcIdx < pixels.length), so on a 4 x 2 buffer the selection
(x, y, w, h) = (3, 0, 2, 1) reads the out-of-bounds cell (4, 0) from the
wrapped in-range index 4 — cell (0, 1) of the next row, value 1 — instead
of clamping or dropping it per-cell (the spec-side per-cell copy yields 0
there). -/
theorem c9_copy_wrap_counterexample :
    (handleCopy
        { initState with
          width := 4, height := 2, pixels := [0, 0, 0, 0, 1, 0, 0, 0],
          history := [[0, 0, 0, 0, 1, 0, 0, 0]],
          selection := some ⟨3, 0, 2, 1⟩ }).clipboard =
      some ⟨2, 1, [0, 1]⟩ ∧
    copyRegionSpec [0, 0, 0, 0, 1, 0, 0, 0] 4 2 ⟨3, 0, 2, 1⟩ = [0, 0] ∧
    ¬ (copyRegion [0, 0, 0, 0, 1, 0, 0, 0] 4 ⟨3, 0, 2, 1⟩ =
        copyRegionSpec [0, 0, 0, 0, 1, 0, 0, 0] 4 2 ⟨3, 0, 2, 1⟩) := by
  refine ⟨?_, ?_, ?_⟩ <;> decide

/-- Claim C9, amended: for every selection rectangle and floating-layer
position, in or out of bounds, Copy, Cut, Lift and Commit are total (the
embedding models every JS typed-array access, which never faults) and
preserve the buffer's cell count of width * height; Commit drops
out-of-bounds cells per-cell, but the Copy, Cut and Lift loops guard only
the linear index, so a source or destination cell beyond the horizontal
edges whose linear index stays in range wraps to a neighbouring row
rather than being clamped or dropped, while negative linear indices read
as 0 and their writes are dropped. -/
theorem c9_ops_preserve_cells (s : AppState) (rect : SelectionRect)
    (hlen : s.pixels.length = s.width * s.height) :
    (handleCopy s).pixels = s.pixels ∧
    (∀ r0 : SelectionRect, s.selection = some r0 →
      (handleCopy s).clipboard = some ⟨r0.w, r0.h, copyRegion s.pixels s.width r0⟩ ∧
      (copyRegion s.pixels s.width r0).length = r0.w * r0.h) ∧
    (handleCut s).pixels.length = s.width * s.height ∧
    (handleLiftSelection s rect).pixels.length = s.width * s.height ∧
    (∀ fl0 : FloatingLayer, (handleLiftSelection s rect).floatingLayer = some fl0 →
      fl0.data.length = rect.w * rect.h) ∧
    (handleCommitFloatingLayer s).pixels.length = s.width * s.height := by
  refine ⟨?_, ?_, ?_, ?_, ?_, ?_⟩
  · unfold handleCopy
    split <;> rfl
  · intro r0 hr0
    unfold handleCopy
    rw [hr0]
    exact ⟨rfl, copyRegion_length _ _ _⟩
  · unfold handleCut
    split
    · exact hlen
    · dsimp only
      rw [zeroRegion_length]
      exact hlen
  · unfold handleLiftSelection
    dsimp only
    rw [(liftBuffers_length s.pixels s.width rect).2]
    exact hlen
  · intro fl0 hfl0
    unfold handleLiftSelection at hfl0
    dsimp only at hfl0
    injection hfl0 with hfl0
    rw [← hfl0]
    exact (liftBuffers_length s.pixels s.width rect).1
  · unfold handleCommitFloatingLayer
    split
    · exact hlen
    · dsimp only
      rw [mergeFloating_length]
      exact hlen

/-- Claim C9, witness: the amended theorem at a tiny concrete state with a
selection sticking out past the right edge. -/
theorem c9_witness :
    (handleCopy
        { initState with
          width := 2, height := 1, pixels := [1, 0], history := [[1, 0]],
          selection := some ⟨1, 0, 3, 1⟩ }).pixels = [1, 0] :=
  (c9_ops_preserve_cells
      { initState with
        width := 2, height := 1, pixels := [1, 0], history := [[1, 0]],
        selection := some ⟨1, 0, 3, 1⟩ }
      ⟨1, 0, 3, 1⟩ (by decide)).1

/-! ## Reachability invariants (claims C2 and C10) -/

/-- One push keeps the history at no more than 51 entries. -/
theorem addToHistory_length_le (hist : List (List Nat)) (idx : Nat) (p : List Nat)
    (hle : hist.length ≤ 51) : ((addToHistory hist idx p).1).length ≤ 51 := by
  unfold addToHistory
  dsimp only
  have h1 : (hist.take (idx + 1)).length ≤ 51 := by
    rw [List.length_take]
    omega
  split
  · next hgt =>
      simp only [List.length_append, List.length_tail, List.length_cons,
        List.length_nil]
      omega
  · next hle2 =>
      simp only [List.length_append, List.length_cons, List.length_nil]
      omega

/-- Every engine transition leaves the history unchanged, pushes one
snapshot through addToHistory, or reseeds it to a single entry. -/
theorem step_history {s s' : AppState} (h : Step s s') :
    s'.history = s.history ∨
    (∃ p, s'.history = (addToHistory s.history s.historyIndex p).1) ∨
    (∃ p, s'.history = [p]) := by
  cases h with
  | undo =>
      left
      unfold handleUndo handleDiscardFloatingLayer
      split
      · split <;> rfl
      · split <;> rfl
  | redo =>
      left
      unfold handleRedo
      split
      · rfl
      · split <;> rfl
  | copy =>
      left
      unfold handleCopy
      split <;> rfl
  | cut =>
      unfold handleCut
      split
      · left; rfl
      · right; left; exact ⟨_, rfl⟩
  | paste =>
      unfold handlePaste
      split
      · left; rfl
      · dsimp only
        split
        · unfold handleCommitFloatingLayer
          split
          · left; rfl
          · right; left; exact ⟨_, rfl⟩
        · left; rfl
  | lift rect =>
      unfold handleLiftSelection
      dsimp only
      split
      · unfold handleCommitFloatingLayer
        split
        · left; rfl
        · right; left; exact ⟨_, rfl⟩
      · left; rfl
  | commit =>
      unfold handleCommitFloatingLayer
      split
      · left; rfl
      · right; left; exact ⟨_, rfl⟩
  | discard =>
      left
      unfold handleDiscardFloatingLayer
      split <;> rfl
  | deselect =>
      unfold handleDeselect
      split
      · unfold handleCommitFloatingLayer
        split
        · left; rfl
        · right; left; exact ⟨_, rfl⟩
      · left; rfl
  | deleteKey =>
      unfold handleDeleteKey
      split
      · left
        unfold handleDiscardFloatingLayer
        split <;> rfl
      · split
        · left; rfl
        · right; left; exact ⟨_, rfl⟩
  | clear => right; left; exact ⟨_, rfl⟩
  | invert => right; left; exact ⟨_, rfl⟩
  | strokeEnd =>
      unfold handleStrokeEnd
      split
      · left; rfl
      · right; left; exact ⟨_, rfl⟩
  | draw x y v =>
      left
      unfold drawCell
      split <;> rfl
  | drag nx ny =>
      left
      unfold dragFloatingLayer
      split <;> rfl
  | setDims w h => right; right; exact ⟨_, rfl⟩
  | importCode text w h mode order =>
      unfold applyImport
      split
      · left; rfl
      · right; right; exact ⟨_, rfl⟩
  | setSel r => left; rfl

set_option maxRecDepth 4000 in
/-- Claim C2, amended: the EditHistory never holds more than 51 snapshots
(the cap check runs before the push), and pushing 51 snapshots onto a
fresh single-entry history leaves exactly 51 entries with the oldest one
evicted. -/
theorem c2_amended_cap_51 :
    (∀ s : AppState, Reachable s → s.history.length ≤ 51) ∧
    ((List.range 51).foldl
        (fun (st : List (List Nat) × Nat) k => addToHistory st.1 st.2 [k])
        ([[99]], 0)).1.length = 51 ∧
    ((List.range 51).foldl
        (fun (st : List (List Nat) × Nat) k => addToHistory st.1 st.2 [k])
        ([[99]], 0)).1.head? = some [0] := by
  refine ⟨?_, by decide, by decide⟩
  intro s hr
  induction hr with
  | init =>
      show 1 ≤ 51
      omega
  | step hr hstep ih =>
      rcases step_history hstep with heq | ⟨p, heq⟩ | ⟨p, heq⟩
      · rw [heq]; exact ih
      · rw [heq]; exact addToHistory_length_le _ _ _ ih
      · rw [heq]; simp

/-- Claim C2, amended, witness: the bound at the initial state. -/
theorem c2_amended_witness : initState.history.length ≤ 51 :=
  c2_amended_cap_51.1 initState Reachable.init

/-- Every engine transition preserves the invariant that a floating layer
is always accompanied by a background snapshot. -/
theorem step_preserves_snapshot {s s' : AppState} (h : Step s s')
    (ih : s.floatingLayer.isSome = true → s.backgroundSnapshot.isSome = true) :
    s'.floatingLayer.isSome = true → s'.backgroundSnapshot.isSome = true := by
  cases h with
  | undo =>
      unfold handleUndo handleDiscardFloatingLayer
      split
      · split
        · exact ih
        · intro hc
          exact (Bool.false_ne_true hc).elim
      · split
        · exact ih
        · exact ih
  | redo =>
      unfold handleRedo
      split
      · exact ih
      · split
        · exact ih
        · exact ih
  | copy =>
      unfold handleCopy
      split
      · exact ih
      · exact ih
  | cut =>
      unfold handleCut
      split
      · exact ih
      · exact ih
  | paste =>
      unfold handlePaste
      split
      · exact ih
      · intro _
        rfl
  | lift rect =>
      unfold handleLiftSelection
      intro _
      rfl
  | commit =>
      unfold handleCommitFloatingLayer
      split
      · exact ih
      · intro hc
        exact (Bool.false_ne_true hc).elim
  | discard =>
      unfold handleDiscardFloatingLayer
      split
      · exact ih
      · intro hc
        exact (Bool.false_ne_true hc).elim
  | deselect =>
      unfold handleDeselect
      split
      · unfold handleCommitFloatingLayer
        split
        · exact ih
        · intro hc
          exact (Bool.false_ne_true hc).elim
      · exact ih
  | deleteKey =>
      unfold handleDeleteKey
      split
      · unfold handleDiscardFloatingLayer
        split
        · exact ih
        · intro hc
          exact (Bool.false_ne_true hc).elim
      · split
        · exact ih
        · exact ih
  | clear =>
      intro hc
      exact (Bool.false_ne_true hc).elim
  | invert => exact ih
  | strokeEnd =>
      unfold handleStrokeEnd
      split
      · exact ih
      · exact ih
  | draw x y v =>
      unfold drawCell
      split
      · exact ih
      · exact ih
  | drag nx ny =>
      unfold dragFloatingLayer
      split
      · exact ih
      · next fl heq =>
          intro _
          exact ih (by rw [heq]; rfl)
  | setDims w h => exact ih
  | importCode text w h mode order =>
      unfold applyImport
      split
      · exact ih
      · exact ih
  | setSel r => exact ih

/-- Claim C10: in every reachable state, a floating layer is accompanied
by a background snapshot taken when the layer was created — Lift and
Paste set both together, dragging changes neither, Commit and Discard
clear both — so Discard always has a snapshot to restore. -/
theorem c10_floating_has_snapshot (s : AppState) (hr : Reachable s)
    (hfl : s.floatingLayer.isSome = true) :
    s.backgroundSnapshot.isSome = true := by
  revert hfl
  induction hr with
  | init =>
      intro hfl
      exact (Bool.false_ne_true hfl).elim
  | step hr hstep ih => exact step_preserves_snapshot hstep ih

/-- Claim C10, witness: a reachable state holding a floating layer —
select a cell, copy it, paste it. -/
theorem c10_witness :
    (handlePaste (handleCopy (setSelectionOp initState
        (some ⟨0, 0, 1, 1⟩)))).floatingLayer.isSome = true ∧
    (handlePaste (handleCopy (setSelectionOp initState
        (some ⟨0, 0, 1, 1⟩)))).backgroundSnapshot.isSome = true := by
  have hreach : Reachable (handlePaste (handleCopy (setSelectionOp initState
      (some ⟨0, 0, 1, 1⟩)))) :=
    Reachable.step
      (Reachable.step (Reachable.step Reachable.init
        (Step.setSel initState (some ⟨0, 0, 1, 1⟩)))
        (Step.copy _))
      (Step.paste _)
  have hfl : (handlePaste (handleCopy (setSelectionOp initState
      (some ⟨0, 0, 1, 1⟩)))).floatingLayer.isSome = true := rfl
  exact ⟨hfl, c10_floating_has_snapshot _ hreach hfl⟩

/-! ## Codec round-trip (claim C1) -/

set_option maxRecDepth 10000 in
/-- A byte assembled from 8 bits is at most 0xFF. -/
theorem ofBits_le (g : Fin 8 → Bool) : ofBits g ≤ 255 := by
  revert g
  decide

set_option maxRecDepth 40000 in
/-- Reading bit i of an assembled byte recovers the bit value. -/
theorem testBit_ofBits : ∀ (g : Fin 8 → Bool) (i : Fin 8),
    (ofBits g).testBit i.val = g i := by
  decide

/-- The bit-position map stays below 8. -/
theorem bitIndex_lt (order : ByteOrder) (k : Nat) (hk : k < 8) :
    bitIndex order k < 8 := by
  cases order <;> simp only [bitIndex] <;> omega

/-- The bit-position map is an involution below 8. -/
theorem bitIndex_bitIndex (order : ByteOrder) (k : Nat) (hk : k < 8) :
    bitIndex order (bitIndex order k) = k := by
  cases order <;> simp only [bitIndex] <;> omega

/-- Hex digit characters are token characters. -/
theorem isTokenChar_hexDigitChar (n : Nat) :
    isTokenChar (hexDigitChar n) = true := by
  by_cases h : n < 16
  · interval_cases n <;> decide
  · have hd : hexDigitChar n = '0' := by
      unfold hexDigitChar
      rw [List.getD_eq_getElem?_getD, List.getElem?_eq_none]
      · rfl
      · simp only [hexDigits, List.length_cons, List.length_nil]
        omega
    rw [hd]
    decide

/-- Hex digit rendering and reading are inverse below 16. -/
theorem hexVal?_hexDigitChar (n : Nat) (hn : n < 16) :
    hexVal? (hexDigitChar n) = some n := by
  interval_cases n <;> decide

/-- Every character of a rendered byte is a token character. -/
theorem renderByte_tokenChars (b : Nat) :
    ∀ c ∈ renderByte b, isTokenChar c = true := by
  intro c hc
  unfold renderByte at hc
  simp only [List.mem_cons, List.not_mem_nil, or_false] at hc
  rcases hc with rfl | rfl | rfl | rfl
  · decide
  · decide
  · exact isTokenChar_hexDigitChar _
  · exact isTokenChar_hexDigitChar _

/-- The splitter consumes a run of token characters into the
accumulator. -/
theorem tokenizeAux_token_run (t : List Char) :
    ∀ (cs acc : List Char), (∀ c ∈ t, isTokenChar c = true) →
      tokenizeAux (t ++ cs) acc = tokenizeAux cs (t.reverse ++ acc) := by
  induction t with
  | nil => intro cs acc _; simp
  | cons c t ih =>
      intro cs acc h
      have hc : isTokenChar c = true := h c (List.mem_cons_self _ _)
      rw [List.cons_append]
      show tokenizeAux (c :: (t ++ cs)) acc = _
      rw [tokenizeAux, if_pos hc]
      rw [ih cs (c :: acc) fun c' hc' => h c' (List.mem_cons_of_mem _ hc')]
      simp

/-- A rendered byte is never the empty character list. -/
theorem renderByte_ne_nil (b : Nat) : renderByte b ≠ [] := by
  unfold renderByte
  simp

/-- Tokenizing the rendered byte text recovers one token per byte. -/
theorem tokenize_renderBytes : ∀ bs : List Nat,
    tokenize (renderBytes bs) = bs.map renderByte := by
  intro bs
  induction bs with
  | nil => rfl
  | cons b bs ih =>
      cases bs with
      | nil =>
          show tokenizeAux (renderByte b) [] = [renderByte b]
          have h0 : renderByte b ++ ([] : List Char) = renderByte b := by simp
          rw [← h0, tokenizeAux_token_run _ _ _ (renderByte_tokenChars b)]
          rw [tokenizeAux]
          have hne : ((renderByte b).reverse ++ ([] : List Char)).isEmpty = false := by
            simp [List.isEmpty_iff, renderByte_ne_nil b]
          rw [if_neg (by rw [hne]; exact Bool.false_ne_true)]
          simp
      | cons b2 bs2 =>
          show tokenizeAux
              (renderByte b ++ ',' :: ' ' :: renderBytes (b2 :: bs2)) [] =
            renderByte b :: (b2 :: bs2).map renderByte
          rw [tokenizeAux_token_run _ _ _ (renderByte_tokenChars b)]
          rw [tokenizeAux]
          rw [if_neg (by decide : ¬(isTokenChar ',' = true))]
          have hne : ((renderByte b).reverse ++ ([] : List Char)).isEmpty = false := by
            simp [List.isEmpty_iff, renderByte_ne_nil b]
          rw [if_neg (by rw [hne]; exact Bool.false_ne_true)]
          rw [tokenizeAux]
          rw [if_neg (by decide : ¬(isTokenChar ' ' = true))]
          rw [if_pos (by decide : (([] : List Char).isEmpty) = true)]
          have ih2 : tokenizeAux (renderBytes (b2 :: bs2)) [] =
              (b2 :: bs2).map renderByte := ih
          rw [ih2]
          simp

/-- Reading back a rendered byte recovers the byte. -/
theorem parseToken_renderByte (b : Nat) (hb : b < 256) :
    parseToken (renderByte b) = some b := by
  have h1 : hexVal? (hexDigitChar (b / 16)) = some (b / 16) :=
    hexVal?_hexDigitChar _ (by omega)
  have h2 : hexVal? (hexDigitChar (b % 16)) = some (b % 16) :=
    hexVal?_hexDigitChar _ (by omega)
  show parseToken
      ('0' :: 'x' :: [hexDigitChar (b / 16), hexDigitChar (b % 16)]) = some b
  have hstep : parseToken
      ('0' :: 'x' :: [hexDigitChar (b / 16), hexDigitChar (b % 16)]) =
      hexDigitsVal [hexDigitChar (b / 16), hexDigitChar (b % 16)] := by
    unfold parseToken
    dsimp only
    rw [if_pos (by simp), if_neg (by simp)]
  rw [hstep]
  unfold hexDigitsVal
  rw [List.foldl_cons, List.foldl_cons, List.foldl_nil]
  rw [h1]
  dsimp only
  rw [h2]
  dsimp only
  congr 1
  omega

/-- Reading back a rendered byte list recovers the bytes. -/
theorem parseTokens_map_renderByte : ∀ bs : List Nat, (∀ b ∈ bs, b < 256) →
    parseTokens (bs.map renderByte) = some bs := by
  intro bs
  induction bs with
  | nil => intro _; rfl
  | cons b bs ih =>
      intro hb
      rw [List.map_cons]
      rw [parseTokens]
      rw [parseToken_renderByte b (hb b (List.mem_cons_self _ _))]
      rw [ih fun b' hb' => hb b' (List.mem_cons_of_mem _ hb')]

/-- The packed byte count matches the count implied by the
configuration. -/
theorem length_packBytes (cells : List Nat) (w h : Nat) (mode : ScanMode)
    (order : ByteOrder) :
    (packBytes cells w h mode order).length = expectedCount w h mode := by
  cases mode <;>
    simp [packBytes, expectedCount, Nat.mul_comm]

/-- Every packed byte is at most 0xFF. -/
theorem packBytes_le (cells : List Nat) (w h : Nat) (mode : ScanMode)
    (order : ByteOrder) : ∀ b ∈ packBytes cells w h mode order, b ≤ 255 := by
  intro b hb
  cases mode <;>
    · simp only [packBytes, List.mem_map] at hb
      obtain ⟨i, _, rfl⟩ := hb
      exact ofBits_le _

/-- getD of a mapped range below the bound. -/
theorem getD_range_map (n : Nat) (f : Nat → Nat) (i : Nat) (hi : i < n) :
    ((List.range n).map f).getD i 0 = f i := by
  rw [List.getD_eq_getElem?_getD, List.getElem?_map, List.getElem?_range hi]
  rfl

/-- Unpacking a horizontally packed buffer recovers each cell. -/
theorem unpackPixel_packBytes_h (cells : List Nat) (w h : Nat)
    (order : ByteOrder) (x y : Nat) (hx : x < w) (hy : y < h) :
    unpackPixel (packBytes cells w h ScanMode.HORIZONTAL_RASTER order) w
      ScanMode.HORIZONTAL_RASTER order x y = cellLit cells (y * w + x) := by
  have hg : x / 8 < groupsPerRow w := by
    unfold groupsPerRow
    omega
  have hgpos : 0 < groupsPerRow w := by
    unfold groupsPerRow
    omega
  have hidx : y * groupsPerRow w + x / 8 < h * groupsPerRow w := by
    have h1 : y * groupsPerRow w + x / 8 < (y + 1) * groupsPerRow w := by
      rw [Nat.succ_mul]
      omega
    have h2 : (y + 1) * groupsPerRow w ≤ h * groupsPerRow w :=
      Nat.mul_le_mul_right _ hy
    omega
  show Nat.testBit
      (((List.range (h * groupsPerRow w)).map fun i =>
          mkByteH order cells w (i / groupsPerRow w) (i % groupsPerRow w)).getD
        (y * groupsPerRow w + x / 8) 0)
      (bitIndex order (x % 8)) = cellLit cells (y * w + x)
  rw [getD_range_map _ _ _ hidx]
  have hdiv : (y * groupsPerRow w + x / 8) / groupsPerRow w = y := by
    rw [Nat.mul_comm y, Nat.mul_add_div hgpos, Nat.div_eq_of_lt hg, Nat.add_zero]
  have hmod : (y * groupsPerRow w + x / 8) % groupsPerRow w = x / 8 := by
    rw [Nat.mul_comm y, Nat.mul_add_mod, Nat.mod_eq_of_lt hg]
  rw [hdiv, hmod]
  unfold mkByteH
  have hb8 : bitIndex order (x % 8) < 8 := bitIndex_lt order _ (by omega)
  rw [testBit_ofBits (fun i => sampleH cells w y (x / 8) (bitIndex order i.val))
    ⟨bitIndex order (x % 8), hb8⟩]
  show sampleH cells w y (x / 8) (bitIndex order (bitIndex order (x % 8))) = _
  rw [bitIndex_bitIndex order _ (by omega)]
  unfold sampleH
  have hx8 : x / 8 * 8 + x % 8 = x := by omega
  rw [if_pos (by omega : x / 8 * 8 + x % 8 < w), hx8]

/-- Unpacking a vertically packed buffer recovers each cell. -/
theorem unpackPixel_packBytes_v (cells : List Nat) (w h : Nat)
    (order : ByteOrder) (x y : Nat) (hx : x < w) (hy : y < h) :
    unpackPixel (packBytes cells w h ScanMode.VERTICAL_PAGE order) w
      ScanMode.VERTICAL_PAGE order x y = cellLit cells (y * w + x) := by
  have hp : y / 8 < pageCount h := by
    unfold pageCount
    omega
  have hidx : y / 8 * w + x < pageCount h * w := by
    have h1 : y / 8 * w + x < (y / 8 + 1) * w := by
      rw [Nat.succ_mul]
      omega
    have h2 : (y / 8 + 1) * w ≤ pageCount h * w :=
      Nat.mul_le_mul_right _ hp
    omega
  show Nat.testBit
      (((List.range (pageCount h * w)).map fun i =>
          mkByteV order cells w h (i / w) (i % w)).getD (y / 8 * w + x) 0)
      (bitIndex order (y % 8)) = cellLit cells (y * w + x)
  rw [getD_range_map _ _ _ hidx]
  have hwpos : 0 < w := by omega
  have hdiv : (y / 8 * w + x) / w = y / 8 := by
    rw [Nat.mul_comm (y / 8), Nat.mul_add_div hwpos, Nat.div_eq_of_lt hx,
      Nat.add_zero]
  have hmod : (y / 8 * w + x) % w = x := by
    rw [Nat.mul_comm (y / 8), Nat.mul_add_mod, Nat.mod_eq_of_lt hx]
  rw [hdiv, hmod]
  unfold mkByteV
  have hb8 : bitIndex order (y % 8) < 8 := bitIndex_lt order _ (by omega)
  rw [testBit_ofBits (fun i => sampleV cells w h (y / 8) x (bitIndex order i.val))
    ⟨bitIndex order (y % 8), hb8⟩]
  show sampleV cells w h (y / 8) x (bitIndex order (bitIndex order (y % 8))) = _
  rw [bitIndex_bitIndex order _ (by omega)]
  unfold sampleV
  have hy8 : y / 8 * 8 + y % 8 = y := by omega
  rw [if_pos (by omega : y / 8 * 8 + y % 8 < h), hy8]

/-- Claim C1: for every binary pixel buffer of positive dimensions and
every (scanMode, byteOrder) pair, parsing the text produced by packing,
with the same dimensions and configuration supplied to the parser,
returns the buffer cell for cell. -/
theorem c1_pack_parse_roundtrip (cells : List Nat) (w h : Nat)
    (mode : ScanMode) (order : ByteOrder) (hw : 0 < w) (hh : 0 < h)
    (hlen : cells.length = w * h) (hbin : ∀ v ∈ cells, v ≤ 1) :
    parseCArray (generateCArray cells w h mode order) w h mode order =
      some cells := by
  have hb255 : ∀ b ∈ packBytes cells w h mode order, b < 256 := fun b hb =>
    Nat.lt_of_le_of_lt (packBytes_le cells w h mode order b hb) (by omega)
  have hexp : 0 < expectedCount w h mode := by
    cases mode <;> unfold expectedCount groupsPerRow pageCount <;>
      apply Nat.mul_pos <;> omega
  have hne : packBytes cells w h mode order ≠ [] := by
    intro hcontra
    have hl := length_packBytes cells w h mode order
    rw [hcontra] at hl
    simp at hl
    omega
  have htoks : tokenize (generateCArray cells w h mode order).toList =
      (packBytes cells w h mode order).map renderByte :=
    tokenize_renderBytes _
  unfold parseCArray
  rw [htoks]
  rw [if_neg (by
    simp only [List.isEmpty_iff, List.map_eq_nil_iff]
    exact hne)]
  rw [parseTokens_map_renderByte _ hb255]
  have hany : (packBytes cells w h mode order).any (fun b => 255 < b) = false := by
    rw [List.any_eq_false]
    intro b hb
    simp only [decide_eq_true_eq, Nat.not_lt]
    exact packBytes_le cells w h mode order b hb
  dsimp only
  rw [if_neg (by rw [hany]; exact Bool.false_ne_true)]
  rw [if_neg (by
    rw [length_packBytes]
    simp)]
  congr 1
  apply List.ext_get
  · simp [unpackBytes, hlen]
  · intro i h1 h2
    have hiwh : i < w * h := by
      simpa [unpackBytes] using h1
    have hx : i % w < w := Nat.mod_lt _ hw
    have hy : i / w < h := by
      have hcomm : w * h = h * w := Nat.mul_comm w h
      rw [Nat.div_lt_iff_lt_mul hw]
      omega
    have hrec : i / w * w + i % w = i := by
      rw [Nat.mul_comm]
      exact Nat.div_add_mod i w
    have hcell : unpackPixel (packBytes cells w h mode order) w mode order
        (i % w) (i / w) = cellLit cells i := by
      cases mode
      · rw [unpackPixel_packBytes_h cells w h order _ _ hx hy, hrec]
      · rw [unpackPixel_packBytes_v cells w h order _ _ hx hy, hrec]
    show (unpackBytes (packBytes cells w h mode order) w h mode order).get
        ⟨i, h1⟩ = cells.get ⟨i, h2⟩
    simp only [unpackBytes, List.get_eq_getElem, List.getElem_map,
      List.getElem_range]
    rw [hcell]
    have hic : i < cells.length := h2
    have hv := hbin cells[i] (List.getElem_mem hic)
    unfold cellLit
    rw [List.getD_eq_getElem?_getD, List.getElem?_eq_getElem hic]
    rcases Nat.le_one_iff_eq_zero_or_eq_one.mp hv with h0 | h1
    · rw [h0]
      simp
    · rw [h1]
      simp

/-- Claim C1, witness: the round trip for the 1 x 1 lit buffer under
horizontal raster, MSB first. -/
theorem c1_witness :
    parseCArray
        (generateCArray [1] 1 1 ScanMode.HORIZONTAL_RASTER ByteOrder.MSB_FIRST)
        1 1 ScanMode.HORIZONTAL_RASTER ByteOrder.MSB_FIRST = some [1] :=
  c1_pack_parse_roundtrip [1] 1 1 ScanMode.HORIZONTAL_RASTER
    ByteOrder.MSB_FIRST (by decide) (by decide) (by decide) (by decide)

end PixelMatrix
